import Mathlib

/-!
Verification of the two-tier file-resolution layer of the ClinicalRxQ member
hub: the Supabase storage REST helpers (`supabaseStorage.ts`) and the
catalog/fallback helpers (`storageCatalog.ts`).

The embedding models the two remote endpoints as deterministic response maps:
the storage list endpoint is a function from the cleaned folder key sent in
the request body to an HTTP response, and the PostgREST query endpoint is a
function from the request path-and-query string to an HTTP response.  Every
`async` source function becomes a function returning `Except SbError _`
(a rejected promise is an `error`), and the unbounded recursion of the deep
storage walk is made total with an explicit fuel parameter (running out of
fuel is its own error, never a silent success).
-/

namespace CRxQ

/-- Backend configuration as read by `getSupabaseUrl` / `getSupabaseAnonKey`;
the empty string models an unset value (the source tests with `!base`). -/
structure Config where
  supabaseUrl : String
  supabaseAnonKey : String
  deriving DecidableEq

/-- UI-facing file item shape (`StorageFileItem` in `supabaseStorage.ts`). -/
structure StorageFileItem where
  path : String
  title : String
  url : String
  filename : String
  mimeType : Option String
  size : Option Nat
  deriving DecidableEq

/-- The `metadata` object of a listed storage entry; `size` is `none` when the
field is absent or not a number (`typeof size !== 'number'`). -/
structure SupaMeta where
  size : Option Nat
  mimetype : Option String
  deriving DecidableEq

/-- Minimal file object returned by the storage list endpoint
(`SupaListObject`); the unused timestamp fields are omitted. -/
structure SupaListObject where
  name : String
  metadata : Option SupaMeta
  deriving DecidableEq

/-- HTTP response of the storage list endpoint: `entries = some rows` when the
JSON body is an array of list objects, `none` when it is some other body
(`!Array.isArray` / unparsable). -/
structure HttpResp where
  status : Nat
  statusText : String
  bodyText : String
  entries : Option (List SupaListObject)
  deriving DecidableEq

/-- The storage backend: a deterministic map from the cleaned folder key sent
in the list request body to the response. -/
def Storage := String → HttpResp

/-- Row shape of the `storage_files_catalog` table (`StorageCatalogRow`);
the unused timestamp fields are omitted. -/
structure StorageCatalogRow where
  id : String
  bucket_name : String
  file_name : String
  file_path : String
  file_url : Option String
  file_size : Option Nat
  mime_type : Option String
  deriving DecidableEq

/-- HTTP response of the PostgREST query endpoint: `rows = some l` when the
body parses as a row array, `none` when `res.json()` would reject. -/
structure PgResp where
  status : Nat
  bodyText : String
  rows : Option (List StorageCatalogRow)
  deriving DecidableEq

/-- The relational backend: a deterministic map from the request
path-and-query string to the response. -/
def Pg := String → PgResp

/-- Errors thrown by the data-access layer (one constructor per `throw new
Error(...)` site, plus fuel exhaustion of the embedded walk). -/
inductive SbError where
  | config (msg : String)
  | remote (status : Nat) (msg : String)
  | protocolErr (msg : String)
  | pgErr (msg : String)
  | fuel
  deriving DecidableEq

/-- JS `s.replace(/^\/+/, '')`. -/
def stripLeadingSlashes (s : String) : String :=
  String.mk (s.data.dropWhile (fun c => c = '/'))

/-- JS `s.replace(/\/+$/, '')`. -/
def stripTrailingSlashes (s : String) : String :=
  String.mk ((s.data.reverse.dropWhile (fun c => c = '/')).reverse)

/-- The cleaning applied to the root key before a list call:
`s.replace(/^\/+/, '').replace(/\/+$/, '')`. -/
def cleanKey (s : String) : String :=
  stripTrailingSlashes (stripLeadingSlashes s)

/-- Index of the last occurrence of `'.'` in the remaining characters, where
the head of the list is at index `i`; `none` models JS `lastIndexOf = -1`. -/
def lastDotAux : List Char → Nat → Option Nat
  | [], _ => none
  | c :: rest, i =>
    match lastDotAux rest (i + 1) with
    | some j => some j
    | none => if c = '.' then some i else none

/-- `stripOneExtension`: remove only the last extension from a filename.
Source: `lastDot = filename.lastIndexOf('.'); if (lastDot <= 0) return
filename; return filename.slice(0, lastDot)`. -/
def stripOneExtension (filename : String) : String :=
  match lastDotAux filename.data 0 with
  | none => filename
  | some i => if i = 0 then filename else String.mk (filename.data.take i)

/-- Characters JS `encodeURIComponent` leaves unescaped: ASCII alphanumerics
and `- _ . ! ~ *` , the apostrophe (code 39), `(` and `)`. -/
def isUriAlwaysUnescaped (c : Char) : Bool :=
  c.isAlphanum || c = '-' || c = '_' || c = '.' || c = '!' || c = '~' ||
    c = '*' || c.toNat = 39 || c = '(' || c = ')'

/-- The additional characters JS `encodeURI` leaves unescaped (URI reserved
set plus `#`). -/
def isUriReservedOrHash (c : Char) : Bool :=
  c = ';' || c = '/' || c = '?' || c = ':' || c = '@' || c = '&' || c = '=' ||
    c = '+' || c = '$' || c = ',' || c = '#'

/-- Uppercase hexadecimal digit. -/
def hexDigit (n : Nat) : Char :=
  if n < 10 then Char.ofNat (48 + n) else Char.ofNat (55 + n)

/-- UTF-8 bytes of the code point `n`. -/
def utf8Bytes (n : Nat) : List Nat :=
  if n < 128 then [n]
  else if n < 2048 then [192 + n / 64, 128 + n % 64]
  else if n < 65536 then [224 + n / 4096, 128 + (n / 64) % 64, 128 + n % 64]
  else [240 + n / 262144, 128 + (n / 4096) % 64, 128 + (n / 64) % 64, 128 + n % 64]

/-- Percent-encode one character as its UTF-8 byte sequence. -/
def percentEncodeChar (c : Char) : List Char :=
  (utf8Bytes c.toNat).foldr
    (fun b acc => '%' :: hexDigit (b / 16) :: hexDigit (b % 16) :: acc) []

/-- JS `encodeURI`. -/
def encodeURI (s : String) : String :=
  String.mk (s.data.foldr
    (fun c acc =>
      if isUriAlwaysUnescaped c || isUriReservedOrHash c then c :: acc
      else percentEncodeChar c ++ acc) [])

/-- JS `encodeURIComponent`. -/
def encodeURIComponent (s : String) : String :=
  String.mk (s.data.foldr
    (fun c acc =>
      if isUriAlwaysUnescaped c then c :: acc else percentEncodeChar c ++ acc) [])

/-- Fixed bucket name. -/
def SUPABASE_BUCKET : String := "clinicalrxqfiles"

/-- `buildPublicUrl`: empty string when the base URL is unconfigured,
otherwise base ++ fixed public-object route ++ bucket ++ encoded clean path. -/
def buildPublicUrl (cfg : Config) (path : String) : String :=
  if cfg.supabaseUrl = "" then ""
  else
    cfg.supabaseUrl ++ "/storage/v1/object/public/" ++ SUPABASE_BUCKET ++ "/" ++
      encodeURI (stripLeadingSlashes path)

/-- `res.ok` of the Fetch API: status in 200..299. -/
def respOk (status : Nat) : Bool :=
  200 ≤ status && status ≤ 299

/-- `listPrefix`: the low-level storage list call.  Throws when the
configuration is unset, when the response is non-success (carrying status and
`text || statusText`) or when the body is not an array; otherwise returns the
parsed entry array.  The `limit`/`offset` options are never supplied by the
callers modelled here, so pagination is below the granularity of the model. -/
def listPrefix (cfg : Config) (srv : Storage) (pfx : String) :
    Except SbError (List SupaListObject) :=
  if cfg.supabaseUrl = "" ∨ cfg.supabaseAnonKey = "" then
    .error (.config "Supabase is not configured. Set VITE_SUPABASE_URL and VITE_SUPABASE_ANON_KEY.")
  else
    let r := srv (cleanKey pfx)
    if respOk r.status = false then
      .error (.remote r.status (if r.bodyText = "" then r.statusText else r.bodyText))
    else
      match r.entries with
      | none => .error (.protocolErr "Unexpected Supabase list response.")
      | some rows => .ok rows

/-- `!row.metadata || typeof row.metadata?.size !== 'number'`. -/
def isFolderRow (row : SupaListObject) : Bool :=
  match row.metadata with
  | none => true
  | some m => m.size.isNone

/-- `row.metadata?.mimetype || undefined` (the `||` collapses an empty
string to `undefined`). -/
def rowMime (row : SupaListObject) : Option String :=
  match row.metadata with
  | none => none
  | some m =>
    match m.mimetype with
    | none => none
    | some s => if s = "" then none else some s

/-- `typeof row.metadata?.size === 'number' ? row.metadata?.size : undefined`. -/
def rowSize (row : SupaListObject) : Option Nat :=
  match row.metadata with
  | none => none
  | some m => m.size

/-- The `StorageFileItem` pushed for a file row found under directory `key`. -/
def mkFileItem (cfg : Config) (key : String) (row : SupaListObject) :
    StorageFileItem :=
  let path := key ++ "/" ++ row.name
  { path := path
    url := buildPublicUrl cfg path
    filename := row.name
    title := stripOneExtension row.name
    mimeType := rowMime row
    size := rowSize row }

/-- State of the recursive walk of `listFilesDeep`: the `visited` set, the
accumulated `results`, and (instrumentation) the `trace` of keys passed to
`listPrefix`, in call order. -/
structure WalkState where
  visited : List String
  results : List StorageFileItem
  trace : List String
  deriving DecidableEq

def initWalkState : WalkState := ⟨[], [], []⟩

/-- A pending unit of work of the deep walk: `visit pfx` is a call
`walk(pfx)` of the source, `rows key rs` is the remainder of the
`for (const row of rows)` loop over the listing of directory `key`. -/
inductive WalkTask where
  | visit (pfx : String)
  | rows (key : String) (rs : List SupaListObject)
  deriving DecidableEq

/-- The recursion of `listFilesDeep`, defunctionalized: the task stack holds
the continuation of the mutual walk/row-loop recursion, so processing the
stack head first gives exactly the source's depth-first order (a folder entry
is fully walked before the later entries of its directory).  Structural on
`fuel` (one unit per step) so that concrete runs reduce; exhaustion is the
distinguished `SbError.fuel`, never a silent success. -/
def walkAux (cfg : Config) (srv : Storage) :
    Nat → List WalkTask → WalkState → WalkState × Option SbError
  | 0, _, st => (st, some .fuel)
  | _ + 1, [], st => (st, none)
  | f + 1, task :: stack, st =>
    match task with
    | .visit pfx =>
      let key := stripTrailingSlashes pfx
      if key ∈ st.visited then walkAux cfg srv f stack st
      else
        let st1 : WalkState :=
          { st with visited := key :: st.visited, trace := st.trace ++ [key] }
        match listPrefix cfg srv key with
        | .error e => (st1, some e)
        | .ok rows => walkAux cfg srv f (.rows key rows :: stack) st1
    | .rows _ [] => walkAux cfg srv f stack st
    | .rows key (row :: rest) =>
      if isFolderRow row then
        walkAux cfg srv f
          (.visit (key ++ "/" ++ row.name) :: .rows key rest :: stack) st
      else
        walkAux cfg srv f (.rows key rest :: stack)
          { st with results := st.results ++ [mkFileItem cfg key row] }

/-- `listFilesDeep`: clean the root key, walk it from the empty state, and
return the flattened results (or the first error). -/
def listFilesDeep (cfg : Config) (srv : Storage) (fuel : Nat) (pfx : String) :
    Except SbError (List StorageFileItem) :=
  match walkAux cfg srv fuel [.visit (cleanKey pfx)] initWalkState with
  | (st, none) => .ok st.results
  | (_, some e) => .error e

/-- The sequence of keys a `listFilesDeep` call passes to `listPrefix`. -/
def listFilesDeepTrace (cfg : Config) (srv : Storage) (fuel : Nat)
    (pfx : String) : List String :=
  (walkAux cfg srv fuel [.visit (cleanKey pfx)] initWalkState).1.trace

deriving instance DecidableEq for Except

/-- The per-program category set. -/
inductive Category where
  | forms
  | protocols
  | resources
  | training
  deriving DecidableEq

def categoryName : Category → String
  | .forms => "forms"
  | .protocols => "protocols"
  | .resources => "resources"
  | .training => "training"

/-- `category === 'forms' ? ['forms', 'Forms'] : [category]` — shared by
`listProgramCategory` and `catalogProgramCategory`. -/
def candidatesFor (cat : Category) : List String :=
  match cat with
  | .forms => ["forms", "Forms"]
  | c => [categoryName c]

/-- The effect of one `try { ... } catch { /* ignore */ }` around a listing:
an error contributes nothing. -/
def catchItems (x : Except SbError (List StorageFileItem)) :
    List StorageFileItem :=
  match x with
  | .ok l => l
  | .error _ => []

/-- `listProgramCategory`: for each candidate casing, deep-list
`programSlug/candidate` inside a try/catch that ignores failures and append
the items into `out`.  Every awaited call is inside the try, so the function
itself always resolves (the `Except` layer mirrors its async signature). -/
def listProgramCategory (cfg : Config) (srv : Storage) (fuel : Nat)
    (programSlug : String) (cat : Category) :
    Except SbError (List StorageFileItem) :=
  .ok ((candidatesFor cat).foldl
    (fun out c =>
      out ++ catchItems (listFilesDeep cfg srv fuel (programSlug ++ "/" ++ c)))
    [])

/-- `listGlobalHandouts`. -/
def listGlobalHandouts (cfg : Config) (srv : Storage) (fuel : Nat) :
    Except SbError (List StorageFileItem) :=
  listFilesDeep cfg srv fuel "patienthandouts"

/-- `listGlobalGuidelines`. -/
def listGlobalGuidelines (cfg : Config) (srv : Storage) (fuel : Nat) :
    Except SbError (List StorageFileItem) :=
  listFilesDeep cfg srv fuel "clinicalguidelines"

/-- `listGlobalBilling`. -/
def listGlobalBilling (cfg : Config) (srv : Storage) (fuel : Nat) :
    Except SbError (List StorageFileItem) :=
  listFilesDeep cfg srv fuel "medicalbilling"

/-- The grouped view `{forms, protocols, resources, training}`. -/
structure Grouped where
  forms : List StorageFileItem
  protocols : List StorageFileItem
  resources : List StorageFileItem
  training : List StorageFileItem
  deriving DecidableEq

/-- `listAllForProgram`: `Promise.all` of the four category listings; it
rejects only if one of them rejects (none can, see
`listProgramCategory_total`). -/
def listAllForProgram (cfg : Config) (srv : Storage) (fuel : Nat)
    (programSlug : String) : Except SbError Grouped :=
  match listProgramCategory cfg srv fuel programSlug .forms,
        listProgramCategory cfg srv fuel programSlug .protocols,
        listProgramCategory cfg srv fuel programSlug .resources,
        listProgramCategory cfg srv fuel programSlug .training with
  | .ok f, .ok p, .ok r, .ok t => .ok ⟨f, p, r, t⟩
  | .error e, _, _, _ => .error e
  | _, .error e, _, _ => .error e
  | _, _, .error e, _ => .error e
  | _, _, _, .error e => .error e

/-- `pgSelect`: the PostgREST GET wrapper.  Throws a configuration error when
the base URL is unset; on a non-success response throws an error carrying
`text || 'PostgREST error: <status>'`; maps a 204 response to the empty row
set; otherwise returns the parsed body. -/
def pgSelect (cfg : Config) (pg : Pg) (pathAndQuery : String) :
    Except SbError (List StorageCatalogRow) :=
  if cfg.supabaseUrl = "" then
    .error (.config "Supabase URL is not configured. Set VITE_SUPABASE_URL or localStorage SUPABASE_URL.")
  else
    let r := pg pathAndQuery
    if respOk r.status = false then
      .error (.pgErr (if r.bodyText = "" then "PostgREST error: " ++ toString r.status else r.bodyText))
    else if r.status = 204 then .ok []
    else
      match r.rows with
      | some rows => .ok rows
      | none => .error (.pgErr "invalid JSON body")

/-- The whitespace class of the JS `trim()` (ASCII whitespace plus NBSP and
BOM; the rarer Unicode space separators do not occur in this data model). -/
def isJsWhitespace (c : Char) : Bool :=
  c = ' ' || c = '\t' || c = '\n' || c = '\r' || c.toNat = 11 || c.toNat = 12 ||
    c.toNat = 160 || c.toNat = 65279

/-- JS `s.trim()`. -/
def trimString (s : String) : String :=
  String.mk (((s.data.dropWhile isJsWhitespace).reverse.dropWhile
    isJsWhitespace).reverse)

/-- `mapRowToItem`: DB row to UI item; uses the stored `file_url` when it is
present and non-blank, otherwise synthesizes the public URL. -/
def mapRowToItem (cfg : Config) (row : StorageCatalogRow) : StorageFileItem :=
  let filename := row.file_name
  let title := stripOneExtension filename
  let path := stripLeadingSlashes row.file_path
  let url :=
    match row.file_url with
    | some u => if 0 < (trimString u).length then u else buildPublicUrl cfg path
    | none => buildPublicUrl cfg path
  { path := path
    url := url
    filename := filename
    title := title
    mimeType :=
      match row.mime_type with
      | none => none
      | some s => if s = "" then none else some s
    size := row.file_size }

/-- The path-and-query string `listCatalogByPrefixes` builds for one
candidate folder key `p`. -/
def catalogQuery (p : String) : String :=
  "/storage_files_catalog?select=*&bucket_name=eq." ++
    encodeURIComponent "clinicalrxqfiles" ++ "&file_path=ilike." ++
    encodeURIComponent (p ++ "%") ++ "&order=file_path.asc"

/-- `results[item.path] = item` on a JS object: insertion order is kept, an
existing key keeps its position and gets the new value, a new key goes to the
end. -/
def upsert (m : List (String × StorageFileItem)) (k : String)
    (v : StorageFileItem) : List (String × StorageFileItem) :=
  match m with
  | [] => [(k, v)]
  | (k0, v0) :: rest =>
    if k0 = k then (k, v) :: rest else (k0, v0) :: upsert rest k v

/-- The inner `for (const r of rows)` loop: map each row and store it under
its `path`. -/
def insertRows (cfg : Config) (rows : List StorageCatalogRow)
    (m : List (String × StorageFileItem)) : List (String × StorageFileItem) :=
  rows.foldl (fun acc r => upsert acc (mapRowToItem cfg r).path (mapRowToItem cfg r)) m

/-- The outer `for (const p of prefixes)` loop of `listCatalogByPrefixes`:
one awaited `pgSelect` per candidate key, so the first error rejects the
whole call. -/
def catalogLoop (cfg : Config) (pg : Pg) :
    List String → List (String × StorageFileItem) →
    Except SbError (List (String × StorageFileItem))
  | [], m => .ok m
  | p :: rest, m =>
    match pgSelect cfg pg (catalogQuery p) with
    | .error e => .error e
    | .ok rows => catalogLoop cfg pg rest (insertRows cfg rows m)

/-- `listCatalogByPrefixes`: empty candidate list short-circuits to `[]`;
otherwise run the query loop and return `Object.values` of the merged map. -/
def listCatalogByPrefixes (cfg : Config) (pg : Pg) (ps : List String) :
    Except SbError (List StorageFileItem) :=
  if ps.isEmpty then .ok []
  else
    match catalogLoop cfg pg ps [] with
    | .ok m => .ok (m.map Prod.snd)
    | .error e => .error e

/-- `catalogGlobalHandouts`. -/
def catalogGlobalHandouts (cfg : Config) (pg : Pg) :
    Except SbError (List StorageFileItem) :=
  listCatalogByPrefixes cfg pg ["patienthandouts/"]

/-- `catalogGlobalGuidelines`. -/
def catalogGlobalGuidelines (cfg : Config) (pg : Pg) :
    Except SbError (List StorageFileItem) :=
  listCatalogByPrefixes cfg pg ["clinicalguidelines/"]

/-- `catalogGlobalBilling`. -/
def catalogGlobalBilling (cfg : Config) (pg : Pg) :
    Except SbError (List StorageFileItem) :=
  listCatalogByPrefixes cfg pg ["medicalbilling/"]

/-- `catalogProgramCategory`: candidate casings mapped to
`programSlug/candidate/` and passed to `listCatalogByPrefixes`. -/
def catalogProgramCategory (cfg : Config) (pg : Pg) (programSlug : String)
    (cat : Category) : Except SbError (List StorageFileItem) :=
  listCatalogByPrefixes cfg pg
    ((candidatesFor cat).map (fun c => programSlug ++ "/" ++ c ++ "/"))

/-- The global category set. -/
inductive GlobalCat where
  | handouts
  | guidelines
  | billing
  deriving DecidableEq

/-- `getGlobalCategory`.  In the source the `try` block returns the promise
of the catalog call WITHOUT awaiting it (`return catalogGlobalHandouts();`),
so a rejection of that promise is never intercepted by the `catch` block: an
async function never throws synchronously, hence the `catch` — and with it
the storage-listing fallback — is unreachable.  The embedding therefore
returns the catalog-tier result directly; `_srv`/`_fuel` stand for the
storage tier captured only by that dead `catch` block. -/
def getGlobalCategory (cfg : Config) (pg : Pg) (_srv : Storage) (_fuel : Nat)
    (cat : GlobalCat) : Except SbError (List StorageFileItem) :=
  match cat with
  | .handouts => catalogGlobalHandouts cfg pg
  | .guidelines => catalogGlobalGuidelines cfg pg
  | .billing => catalogGlobalBilling cfg pg

/-- `getProgramResourcesGrouped`: the four catalog category calls joined with
an awaited `Promise.all` inside the `try`; any rejection is caught and the
whole view is recomputed via `listAllForProgram`. -/
def getProgramResourcesGrouped (cfg : Config) (pg : Pg) (srv : Storage)
    (fuel : Nat) (programSlug : String) : Except SbError Grouped :=
  match catalogProgramCategory cfg pg programSlug .training,
        catalogProgramCategory cfg pg programSlug .protocols,
        catalogProgramCategory cfg pg programSlug .forms,
        catalogProgramCategory cfg pg programSlug .resources with
  | .ok t, .ok p, .ok f, .ok r => .ok ⟨f, p, r, t⟩
  | _, _, _, _ => listAllForProgram cfg srv fuel programSlug

/-- `true` exactly when the call rejected. -/
def isErr {ε α : Type} (x : Except ε α) : Bool :=
  match x with
  | .error _ => true
  | .ok _ => false

/-! ### Facts about `lastDotAux` (the JS `lastIndexOf('.')`) -/

theorem lastDotAux_none_iff (l : List Char) :
    ∀ i : Nat, lastDotAux l i = none ↔ '.' ∉ l := by
  induction l with
  | nil => intro i; simp [lastDotAux]
  | cons c rest ih =>
    intro i
    simp only [lastDotAux, List.mem_cons]
    cases hr : lastDotAux rest (i + 1) with
    | some j =>
      have hmem : '.' ∈ rest := by
        by_contra hm
        rw [← ih (i + 1)] at hm
        rw [hr] at hm
        exact Option.noConfusion hm
      simp [hmem]
    | none =>
      have hrest : '.' ∉ rest := (ih (i + 1)).mp hr
      by_cases hc : c = '.'
      · simp [hc]
      · simp only [hrest, or_false]
        constructor
        · intro _ h
          exact hc h.symm
        · intro _
          simp [hc]

theorem lastDotAux_some_dot (l : List Char) :
    ∀ (i j : Nat), lastDotAux l i = some j →
      ∃ k, j = i + k ∧ l[k]? = some '.' := by
  induction l with
  | nil => intro i j h; exact Option.noConfusion h
  | cons c rest ih =>
    intro i j h
    simp only [lastDotAux] at h
    cases hr : lastDotAux rest (i + 1) with
    | some j0 =>
      rw [hr] at h
      obtain ⟨k, hk, hdot⟩ := ih (i + 1) j0 (by rw [hr])
      cases h
      exact ⟨k + 1, by omega, by simpa using hdot⟩
    | none =>
      rw [hr] at h
      by_cases hc : c = '.'
      · rw [if_pos hc] at h
        cases h
        exact ⟨0, by omega, by simp [hc]⟩
      · rw [if_neg hc] at h
        exact Option.noConfusion h

theorem lastDotAux_of_last_dot (l : List Char) :
    ∀ (i k : Nat), l[k]? = some '.' → '.' ∉ l.drop (k + 1) →
      lastDotAux l i = some (i + k) := by
  induction l with
  | nil => intro i k hk _; simp at hk
  | cons c rest ih =>
    intro i k hk hafter
    cases k with
    | zero =>
      have hc : c = '.' := by simpa using hk
      have hrest : '.' ∉ rest := by simpa using hafter
      have hnone : lastDotAux rest (i + 1) = none :=
        (lastDotAux_none_iff rest (i + 1)).mpr hrest
      simp [lastDotAux, hnone, hc]
    | succ k0 =>
      have hk0 : rest[k0]? = some '.' := by simpa using hk
      have hafter0 : '.' ∉ rest.drop (k0 + 1) := by simpa using hafter
      have := ih (i + 1) k0 hk0 hafter0
      simp only [lastDotAux, this]
      congr 1
      omega

/-- C3.  `stripOneExtension` is exact last-extension stripping: a filename
whose dots (if any) all sit at position 0 is returned unchanged, and a
filename whose last dot sits at a position `i > 0` is cut to its first `i`
characters (so exactly the substring from that dot to the end is removed and
everything before it is preserved verbatim). -/
theorem stripOneExtension_correct (s : String) :
    ('.' ∉ s.data.drop 1 → stripOneExtension s = s) ∧
    (∀ i : Nat, 0 < i → s.data[i]? = some '.' → '.' ∉ s.data.drop (i + 1) →
      stripOneExtension s = String.mk (s.data.take i)) := by
  constructor
  · intro h
    unfold stripOneExtension
    cases hl : lastDotAux s.data 0 with
    | none => rfl
    | some m =>
      obtain ⟨k, hm, hk⟩ := lastDotAux_some_dot s.data 0 m hl
      by_cases h0 : m = 0
      · simp [h0]
      · exfalso
        apply h
        have hk1 : 1 ≤ k := by omega
        have hdrop : (s.data.drop 1)[k - 1]? = some '.' := by
          rw [List.getElem?_drop]
          have : 1 + (k - 1) = k := by omega
          rw [this]
          exact hk
        exact List.getElem?_mem hdrop
  · intro i hi hdot hafter
    have hlast := lastDotAux_of_last_dot s.data 0 i hdot hafter
    unfold stripOneExtension
    rw [hlast]
    simp only [Nat.zero_add]
    rw [if_neg (by omega)]

/-- Witness for C3 at the concrete filename `Report.Final.pdf` (last dot at
index 12). -/
theorem stripOneExtension_correct_witness :
    stripOneExtension "Report.Final.pdf" = "Report.Final" :=
  ((stripOneExtension_correct "Report.Final.pdf").2 12 (by decide) (by decide)
    (by decide)).trans (by decide)

/-! ### The duplicate-call guard of the deep walk -/

/-- Invariant of the walk state: the keys already passed to `listPrefix` are
pairwise distinct and all recorded in the visited set. -/
def WalkInv (st : WalkState) : Prop :=
  st.trace.Nodup ∧ ∀ k ∈ st.trace, k ∈ st.visited

theorem walkInv_extend {st : WalkState} (h : WalkInv st) {key : String}
    (hv : key ∉ st.visited) :
    WalkInv { st with visited := key :: st.visited, trace := st.trace ++ [key] } := by
  constructor
  · rw [List.nodup_append]
    refine ⟨h.1, List.nodup_singleton key, ?_⟩
    intro a ha hb
    have : a = key := by simpa using hb
    subst this
    exact hv (h.2 a ha)
  · intro k hk
    rcases List.mem_append.mp hk with hk | hk
    · exact List.mem_cons_of_mem _ (h.2 k hk)
    · have : k = key := by simpa using hk
      subst this
      exact List.mem_cons_self _ _

theorem walkInv_results {st : WalkState} (h : WalkInv st)
    (more : List StorageFileItem) :
    WalkInv { st with results := st.results ++ more } := h

theorem walkAux_inv (cfg : Config) (srv : Storage) :
    ∀ (fuel : Nat) (stack : List WalkTask) (st : WalkState), WalkInv st →
      WalkInv (walkAux cfg srv fuel stack st).1 := by
  intro fuel
  induction fuel with
  | zero => intro stack st h; exact h
  | succ f ih =>
    intro stack st h
    match stack with
    | [] => exact h
    | WalkTask.visit pfx :: stack' =>
      simp only [walkAux]
      by_cases hv : stripTrailingSlashes pfx ∈ st.visited
      · rw [if_pos hv]
        exact ih stack' st h
      · rw [if_neg hv]
        have h1 := walkInv_extend h hv
        cases hp : listPrefix cfg srv (stripTrailingSlashes pfx) with
        | error e => exact h1
        | ok rows => exact ih _ _ h1
    | WalkTask.rows key [] :: stack' =>
      simp only [walkAux]
      exact ih stack' st h
    | WalkTask.rows key (row :: rest) :: stack' =>
      simp only [walkAux]
      by_cases hf : isFolderRow row
      · rw [if_pos hf]
        exact ih _ st h
      · rw [if_neg hf]
        exact ih _ _ (walkInv_results h _)

/-- C5.  Cycle/duplicate-call safety of the deep walk: during one
`listFilesDeep` resolution the sequence of normalized keys passed to the
low-level list call contains no key twice, whatever the backend returns (in
particular when the same folder is reachable through several folder
entries). -/
theorem listFilesDeep_trace_nodup (cfg : Config) (srv : Storage) (fuel : Nat)
    (pfx : String) : (listFilesDeepTrace cfg srv fuel pfx).Nodup :=
  (walkAux_inv cfg srv fuel [.visit (cleanKey pfx)] initWalkState
    ⟨List.nodup_nil, by intro k hk; simp [initWalkState] at hk⟩).1

/-! ### The keyed merge of the relational tier -/

theorem upsert_mem {m : List (String × StorageFileItem)} {k : String}
    {v : StorageFileItem} :
    ∀ kv ∈ upsert m k v, kv = (k, v) ∨ kv ∈ m := by
  induction m with
  | nil => intro kv h; simp [upsert] at h; exact Or.inl h
  | cons hd tl ih =>
    intro kv h
    rw [upsert] at h
    by_cases he : hd.1 = k
    · rw [if_pos he] at h
      rcases List.mem_cons.mp h with h | h
      · exact Or.inl h
      · exact Or.inr (List.mem_cons_of_mem _ h)
    · rw [if_neg he] at h
      rcases List.mem_cons.mp h with h | h
      · exact Or.inr (h ▸ List.mem_cons_self _ _)
      · rcases ih kv h with h | h
        · exact Or.inl h
        · exact Or.inr (List.mem_cons_of_mem _ h)

theorem upsert_map_fst_mem {m : List (String × StorageFileItem)} {k x : String}
    {v : StorageFileItem} (h : x ∈ (upsert m k v).map Prod.fst) :
    x = k ∨ x ∈ m.map Prod.fst := by
  rcases List.mem_map.mp h with ⟨kv, hkv, hx⟩
  rcases upsert_mem kv hkv with h1 | h1
  · subst h1; exact Or.inl hx.symm
  · exact Or.inr (hx ▸ List.mem_map_of_mem Prod.fst h1)

theorem upsert_map_fst_nodup {m : List (String × StorageFileItem)}
    {k : String} {v : StorageFileItem} (h : (m.map Prod.fst).Nodup) :
    ((upsert m k v).map Prod.fst).Nodup := by
  induction m with
  | nil => simp [upsert]
  | cons hd tl ih =>
    rw [List.map_cons, List.nodup_cons] at h
    rw [upsert]
    by_cases he : hd.1 = k
    · rw [if_pos he]
      rw [List.map_cons, List.nodup_cons]
      exact ⟨he ▸ h.1, h.2⟩
    · rw [if_neg he]
      rw [List.map_cons, List.nodup_cons]
      refine ⟨?_, ih h.2⟩
      intro hc
      rcases upsert_map_fst_mem hc with hc | hc
      · exact he hc
      · exact h.1 hc

/-- Invariant of the merge map: each stored value carries its own key as
`path`, and the keys are pairwise distinct. -/
def KInv (m : List (String × StorageFileItem)) : Prop :=
  (∀ kv ∈ m, kv.2.path = kv.1) ∧ (m.map Prod.fst).Nodup

theorem upsert_KInv {m : List (String × StorageFileItem)} {k : String}
    {v : StorageFileItem} (h : KInv m) (hv : v.path = k) : KInv (upsert m k v) := by
  refine ⟨?_, upsert_map_fst_nodup h.2⟩
  intro kv hkv
  rcases upsert_mem kv hkv with h1 | h1
  · subst h1; exact hv
  · exact h.1 kv h1

theorem insertRows_KInv (cfg : Config) (rows : List StorageCatalogRow) :
    ∀ m : List (String × StorageFileItem), KInv m → KInv (insertRows cfg rows m) := by
  induction rows with
  | nil => intro m h; exact h
  | cons r rs ih =>
    intro m h
    exact ih _ (upsert_KInv h rfl)

theorem catalogLoop_KInv (cfg : Config) (pg : Pg) :
    ∀ (ps : List String) (m m' : List (String × StorageFileItem)), KInv m →
      catalogLoop cfg pg ps m = .ok m' → KInv m' := by
  intro ps
  induction ps with
  | nil =>
    intro m m' h he
    rw [catalogLoop] at he
    cases he
    exact h
  | cons p rest ih =>
    intro m m' h he
    rw [catalogLoop] at he
    cases hq : pgSelect cfg pg (catalogQuery p) with
    | error e => rw [hq] at he; exact Except.noConfusion he
    | ok rows =>
      rw [hq] at he
      exact ih _ _ (insertRows_KInv cfg rows m h) he

/-- C4.  The relational-tier merge deduplicates by `path`: whenever
`listCatalogByPrefixes` succeeds, no two returned records share a `path`,
even when the per-candidate queries return overlapping rows. -/
theorem listCatalogByPrefixes_path_nodup (cfg : Config) (pg : Pg)
    (ps : List String) (items : List StorageFileItem)
    (h : listCatalogByPrefixes cfg pg ps = .ok items) :
    (items.map (fun it => it.path)).Nodup := by
  rw [listCatalogByPrefixes] at h
  by_cases he : ps.isEmpty
  · rw [if_pos he] at h
    cases h
    exact List.nodup_nil
  · rw [if_neg he] at h
    cases hc : catalogLoop cfg pg ps [] with
    | error e => rw [hc] at h; exact Except.noConfusion h
    | ok m =>
      rw [hc] at h
      have hk : KInv m :=
        catalogLoop_KInv cfg pg ps [] m ⟨by simp, by simp⟩ hc
      have hitems : items = m.map Prod.snd := (Except.ok.inj h).symm
      subst hitems
      have hmap : (m.map Prod.snd).map (fun it => it.path) = m.map Prod.fst := by
        rw [List.map_map]
        exact List.map_congr_left (fun kv hkv => hk.1 kv hkv)
      rw [hmap]
      exact hk.2

/-- Shared concrete inputs for the witnesses. -/
def cfgW : Config := ⟨"http://h", "k"⟩

/-- A relational backend answering every query with the same three rows, two
of which share the `file_path` `x/a.pdf`. -/
def pgDupW : Pg := fun _ =>
  ⟨200, "",
    some [⟨"1", "clinicalrxqfiles", "a.pdf", "x/a.pdf", none, some 3, none⟩,
          ⟨"2", "clinicalrxqfiles", "b.pdf", "x/b.pdf", some "http://u/b", some 4,
            some "application/pdf"⟩,
          ⟨"3", "clinicalrxqfiles", "a.pdf", "x/a.pdf", none, some 3, none⟩]⟩

/-- The merged result of `pgDupW` over the two overlapping candidates. -/
def itemsDupW : List StorageFileItem :=
  [⟨"x/a.pdf", "a", "http://h/storage/v1/object/public/clinicalrxqfiles/x/a.pdf",
    "a.pdf", none, some 3⟩,
   ⟨"x/b.pdf", "b", "http://u/b", "b.pdf", some "application/pdf", some 4⟩]

/-- Witness for C4: a concrete run over two overlapping candidate keys whose
queries return duplicated paths still yields pairwise-distinct paths. -/
theorem listCatalogByPrefixes_path_nodup_witness :
    (itemsDupW.map (fun it => it.path)).Nodup :=
  listCatalogByPrefixes_path_nodup cfgW pgDupW ["x/", "x/y"] itemsDupW (by decide)

/-! ### Error contracts of the two low-level clients -/

/-- C7.  `listPrefix` rejects exactly when the base URL or the access key is
unset, the response status is non-success, or the body is not an array; in
the remaining case it resolves with the parsed entry array.  The non-success
rejection carries the HTTP status and the body text (falling back to the
status text when the body is empty).  The fetch transport is modelled as
total, so a response always arrives. -/
theorem listPrefix_spec (cfg : Config) (srv : Storage) (p : String) :
    (isErr (listPrefix cfg srv p) = true ↔
      cfg.supabaseUrl = "" ∨ cfg.supabaseAnonKey = "" ∨
        respOk (srv (cleanKey p)).status = false ∨
        (srv (cleanKey p)).entries = none) ∧
    (∀ rows, cfg.supabaseUrl ≠ "" → cfg.supabaseAnonKey ≠ "" →
      respOk (srv (cleanKey p)).status = true →
      (srv (cleanKey p)).entries = some rows →
      listPrefix cfg srv p = .ok rows) ∧
    (cfg.supabaseUrl ≠ "" → cfg.supabaseAnonKey ≠ "" →
      respOk (srv (cleanKey p)).status = false →
      listPrefix cfg srv p = .error (.remote (srv (cleanKey p)).status
        (if (srv (cleanKey p)).bodyText = "" then (srv (cleanKey p)).statusText
          else (srv (cleanKey p)).bodyText))) := by
  refine ⟨?_, ?_, ?_⟩
  · rw [listPrefix]
    by_cases hcfg : cfg.supabaseUrl = "" ∨ cfg.supabaseAnonKey = ""
    · rw [if_pos hcfg]
      simp only [isErr, true_iff]
      rcases hcfg with h | h
      · exact Or.inl h
      · exact Or.inr (Or.inl h)
    · rw [if_neg hcfg]
      push_neg at hcfg
      simp only [hcfg.1, hcfg.2, false_or]
      by_cases hok : respOk (srv (cleanKey p)).status = false
      · simp [hok, isErr]
      · have htrue : respOk (srv (cleanKey p)).status = true := by
          cases hb : respOk (srv (cleanKey p)).status
          · exact absurd hb hok
          · rfl
        rw [if_neg hok]
        cases he : (srv (cleanKey p)).entries with
        | none => simp [isErr, htrue]
        | some rows => simp [isErr, htrue]
  · intro rows hu hk hok he
    rw [listPrefix, if_neg (by simp [hu, hk]), if_neg (by simp [hok]), he]
  · intro hu hk hok
    rw [listPrefix, if_neg (by simp [hu, hk]), if_pos hok]

/-- A storage backend answering every key with a well-formed single-file
listing. -/
def srvOkW : Storage := fun _ =>
  ⟨200, "OK", "", some [⟨"doc.pdf", some ⟨some 10, none⟩⟩]⟩

/-- Witness for C7: with configuration present and a 200 array response,
`listPrefix` resolves with the parsed entries. -/
theorem listPrefix_spec_witness :
    listPrefix cfgW srvOkW "x" = .ok [⟨"doc.pdf", some ⟨some 10, none⟩⟩] :=
  (listPrefix_spec cfgW srvOkW "x").2.1 _ (by decide) (by decide) (by decide)
    (by decide)

/-- C8.  `pgSelect` maps a non-success response to a rejection carrying the
response body text (or `PostgREST error: <status>` when the body is empty),
and maps a 204 no-content response to the empty row set rather than an
error. -/
theorem pgSelect_spec (cfg : Config) (pg : Pg) (q : String) :
    (cfg.supabaseUrl ≠ "" → respOk (pg q).status = false →
      pgSelect cfg pg q = .error (.pgErr
        (if (pg q).bodyText = "" then "PostgREST error: " ++ toString (pg q).status
          else (pg q).bodyText))) ∧
    (cfg.supabaseUrl ≠ "" → (pg q).status = 204 → pgSelect cfg pg q = .ok []) := by
  constructor
  · intro hu hok
    rw [pgSelect, if_neg hu, if_pos hok]
  · intro hu h204
    have hok : respOk (pg q).status = true := by rw [h204]; rfl
    rw [pgSelect, if_neg hu, if_neg (by simp [hok]), if_pos h204]

/-- A relational backend answering every query with HTTP 500 and body
`boom`. -/
def pg500W : Pg := fun _ => ⟨500, "boom", none⟩

/-- A relational backend answering every query with HTTP 204 and no body. -/
def pg204W : Pg := fun _ => ⟨204, "", none⟩

/-- Witness for C8 at a concrete 500 response and a concrete 204 response. -/
theorem pgSelect_spec_witness :
    pgSelect cfgW pg500W "/q" = .error (.pgErr "boom") ∧
    pgSelect cfgW pg204W "/q" = .ok [] :=
  ⟨((pgSelect_spec cfgW pg500W "/q").1 (by decide) (by decide)).trans (by decide),
   (pgSelect_spec cfgW pg204W "/q").2 (by decide) (by decide)⟩

/-! ### The per-candidate error swallowing of the storage tier -/

theorem foldl_append_flatten {α β : Type} (f : α → List β) (l : List α) :
    ∀ out : List β,
      l.foldl (fun acc c => acc ++ f c) out = out ++ (l.map f).flatten := by
  induction l with
  | nil => intro out; simp
  | cons c rest ih =>
    intro out
    simp only [List.foldl_cons, List.map_cons, List.flatten_cons]
    rw [ih, List.append_assoc]

/-- C9.  `listProgramCategory` always resolves: each candidate's deep listing
runs inside a try/catch whose catch ignores the error, so a failing candidate
contributes no items (`catchItems` maps an error to `[]`) and the result is
the concatenation of the successful candidates' items. -/
theorem listProgramCategory_total (cfg : Config) (srv : Storage) (fuel : Nat)
    (programSlug : String) (cat : Category) :
    listProgramCategory cfg srv fuel programSlug cat =
      .ok (((candidatesFor cat).map
        (fun c => catchItems
          (listFilesDeep cfg srv fuel (programSlug ++ "/" ++ c)))).flatten) ∧
    (∀ e : SbError, catchItems (.error e) = []) := by
  constructor
  · rw [listProgramCategory, foldl_append_flatten]
    rw [List.nil_append]
  · intro e
    rfl

/-- C10.  `buildPublicUrl` degrades to the empty string when the base URL is
unconfigured, and otherwise concatenates the base URL, the fixed public
object route, the fixed bucket and the URI-encoded path with its leading
slashes stripped. -/
theorem buildPublicUrl_spec (cfg : Config) (path : String) :
    (cfg.supabaseUrl = "" → buildPublicUrl cfg path = "") ∧
    (cfg.supabaseUrl ≠ "" → buildPublicUrl cfg path =
      cfg.supabaseUrl ++ "/storage/v1/object/public/" ++ SUPABASE_BUCKET ++
        "/" ++ encodeURI (stripLeadingSlashes path)) := by
  constructor
  · intro h
    rw [buildPublicUrl, if_pos h]
  · intro h
    rw [buildPublicUrl, if_neg h]

/-- Witness for C10: unset base URL gives the empty string; a configured base
URL gives the concatenated public URL with the doubled leading slash stripped
and the space percent-encoded. -/
theorem buildPublicUrl_spec_witness :
    buildPublicUrl ⟨"", "k"⟩ "/a b.pdf" = "" ∧
    buildPublicUrl cfgW "//a b.pdf" =
      "http://h/storage/v1/object/public/clinicalrxqfiles/a%20b.pdf" :=
  ⟨(buildPublicUrl_spec ⟨"", "k"⟩ "/a b.pdf").1 rfl,
   ((buildPublicUrl_spec cfgW "//a b.pdf").2 (by decide)).trans (by decide)⟩

/-! ### Fallback composition -/

/-- C2.  Whenever any of the four relational category queries of
`getProgramResourcesGrouped` rejects, the partial relational results are
dropped and the returned grouped view is exactly the one produced by the
storage-listing tier `listAllForProgram` on the same program (hence identical
in content, not merely up to ordering). -/
theorem getProgramResourcesGrouped_fallback (cfg : Config) (pg : Pg)
    (srv : Storage) (fuel : Nat) (programSlug : String)
    (h : isErr (catalogProgramCategory cfg pg programSlug .training) = true ∨
         isErr (catalogProgramCategory cfg pg programSlug .protocols) = true ∨
         isErr (catalogProgramCategory cfg pg programSlug .forms) = true ∨
         isErr (catalogProgramCategory cfg pg programSlug .resources) = true) :
    getProgramResourcesGrouped cfg pg srv fuel programSlug =
      listAllForProgram cfg srv fuel programSlug := by
  rw [getProgramResourcesGrouped]
  cases ht : catalogProgramCategory cfg pg programSlug .training <;>
    cases hp : catalogProgramCategory cfg pg programSlug .protocols <;>
      cases hf : catalogProgramCategory cfg pg programSlug .forms <;>
        cases hr : catalogProgramCategory cfg pg programSlug .resources <;>
          simp_all [isErr]

/-- A storage backend where only the capitalized `p1/Forms` folder exists
(one file `doc.pdf`); every other key answers 404. -/
def srvFormsW : Storage := fun key =>
  if key = "p1/Forms" then
    ⟨200, "OK", "", some [⟨"doc.pdf", some ⟨some 10, some "application/pdf"⟩⟩]⟩
  else ⟨404, "Not Found", "missing", none⟩

/-- Witness for C2: with every relational query answering 500, the grouped
view equals the storage-tier view. -/
theorem getProgramResourcesGrouped_fallback_witness :
    getProgramResourcesGrouped cfgW pg500W srvFormsW 20 "p1" =
      listAllForProgram cfgW srvFormsW 20 "p1" :=
  getProgramResourcesGrouped_fallback cfgW pg500W srvFormsW 20 "p1"
    (Or.inl (by decide))

/-- C6.  Casing tolerance of the `forms` category: the storage tier lists
both `slug/forms` and `slug/Forms` and returns the concatenation of the two
lookups; the relational tier queries both `slug/forms/` and `slug/Forms/`
and merges them; and when the lowercase lookup contributes nothing the
capitalized folder's contents are still returned. -/
theorem forms_casing_union (cfg : Config) (pg : Pg) (srv : Storage)
    (fuel : Nat) (slug : String) :
    listProgramCategory cfg srv fuel slug .forms =
      .ok (catchItems (listFilesDeep cfg srv fuel (slug ++ "/" ++ "forms")) ++
           catchItems (listFilesDeep cfg srv fuel (slug ++ "/" ++ "Forms"))) ∧
    catalogProgramCategory cfg pg slug .forms =
      listCatalogByPrefixes cfg pg
        [slug ++ "/" ++ "forms" ++ "/", slug ++ "/" ++ "Forms" ++ "/"] ∧
    (catchItems (listFilesDeep cfg srv fuel (slug ++ "/" ++ "forms")) = [] →
      listProgramCategory cfg srv fuel slug .forms =
        .ok (catchItems (listFilesDeep cfg srv fuel (slug ++ "/" ++ "Forms")))) := by
  refine ⟨rfl, rfl, ?_⟩
  intro h
  rw [listProgramCategory]
  show Except.ok (([] ++ catchItems (listFilesDeep cfg srv fuel (slug ++ "/" ++ "forms"))) ++
    catchItems (listFilesDeep cfg srv fuel (slug ++ "/" ++ "Forms"))) = _
  rw [List.nil_append, h, List.nil_append]

/-- Witness for C6: a program where only the capitalized `Forms` folder
exists still yields that folder's contents. -/
theorem forms_casing_union_witness :
    listProgramCategory cfgW srvFormsW 20 "p1" Category.forms =
      .ok (catchItems (listFilesDeep cfgW srvFormsW 20 ("p1" ++ "/" ++ "Forms"))) :=
  (forms_casing_union cfgW pg500W srvFormsW 20 "p1").2.2 (by decide)

/-- A storage backend serving exactly one handout file under
`patienthandouts`. -/
def srvHandW : Storage := fun key =>
  if key = "patienthandouts" then
    ⟨200, "OK", "", some [⟨"h.pdf", some ⟨some 5, none⟩⟩]⟩
  else ⟨404, "Not Found", "missing", none⟩

/-- The single file record the recursive walk of `patienthandouts` produces
under `srvHandW`. -/
def handoutItemW : StorageFileItem :=
  ⟨"patienthandouts/h.pdf", "h",
   "http://h/storage/v1/object/public/clinicalrxqfiles/patienthandouts/h.pdf",
   "h.pdf", none, some 5⟩

/-- C1 (observed behaviour).  With the relational endpoint answering HTTP 500
and the object store serving `patienthandouts/h.pdf`, a global `handouts`
fetch rejects with the relational error instead of falling back: the `try`
block returns the catalog promise without awaiting it, so its rejection
escapes the `catch`, while a direct `listGlobalHandouts` walk on the same
backend succeeds with the file set the claim expects. -/
theorem getGlobalCategory_handouts_no_fallback :
    getGlobalCategory cfgW pg500W srvHandW 20 GlobalCat.handouts =
      .error (.pgErr "boom") ∧
    listGlobalHandouts cfgW srvHandW 20 = .ok [handoutItemW] :=
  ⟨by decide, by decide⟩

end CRxQ
